import Mathlib

/-!
# Ledger Allocation Engine — formal model

A shallow embedding of the ledger core of the bookkeeping backend:
`PaymentServices.add_payment` (src/payments/services.py) and
`SaleServices.create_sale` (src/sales/services.py), over the data model of
`Customer`, `Sale`, `Payment` and `SalePaymentLink`
(src/customers/models.py, src/sales/models.py, src/payments/models.py).

Monetary amounts (Python `Decimal` in the source) are modelled as `ℚ`:
the source only adds, subtracts, multiplies, compares and takes
`min`/`max` of amounts, so the arithmetic is exact and `ℚ` is faithful.
A single customer's ledger is modelled (allocations for different
customers share no state); rows are kept in Lean lists, with a row's id
being its index in creation order, matching the `created_at ASC` ordering
the services rely on.
-/

namespace Ledger

/-- `SaleStatus` (src/sales/models.py). -/
inductive SaleStatus where
  | UNPAID
  | PARTIALLY_PAID
  | FULLY_PAID
deriving DecidableEq, Repr

/-- `PaymentType` (src/payments/models.py). -/
inductive PaymentType where
  | TRANSFER
  | CASH
  | CARD
deriving DecidableEq, Repr

/-- The balance fields of `Customer` (src/customers/models.py); identity
fields (ids, name, timestamps) play no role in the allocation logic. -/
structure Customer where
  credit_balance : ℚ
  total_debt : ℚ
deriving DecidableEq, Repr

/-- The ledger fields of a `Sale` row (src/sales/models.py). -/
structure Sale where
  total_amount : ℚ
  amount_paid : ℚ
  credit_applied : ℚ
  status : SaleStatus
deriving DecidableEq, Repr

/-- A `Payment` row (src/payments/models.py). `payment_type` is optional
here because `create_sale` copies the sale's optional `payment_type` into
the payment it creates. -/
structure Payment where
  amount : ℚ
  payment_type : Option PaymentType
deriving DecidableEq, Repr

/-- A `SalePaymentLink` row (src/payments/models.py); `sale_id` and
`payment_id` are indices into the sales and payments lists. -/
structure SalePaymentLink where
  sale_id : Nat
  payment_id : Nat
  amount_applied : ℚ
deriving DecidableEq, Repr

/-- One customer's ledger state: the customer's balances plus all of that
customer's `Sale`, `Payment` and `SalePaymentLink` rows, each list in
creation order (`created_at` ascending). -/
structure State where
  customer : Customer
  sales : List Sale
  payments : List Payment
  links : List SalePaymentLink
deriving DecidableEq, Repr

/-- `PaymentInput` (src/payments/schemas.py): note it places no constraint
on `amount` (no `gt=0`), and SQLModel table models do not re-validate, so
any `Decimal` reaches the service. -/
structure PaymentInput where
  amount : ℚ
  payment_type : PaymentType
deriving DecidableEq, Repr

/-- A sale line item after unit-price resolution (src/sales/services.py
lines 47-73 resolve `unit_price` from the product or its size row). -/
structure SaleItemInput where
  quantity : Int
  unit_price : ℚ
deriving DecidableEq, Repr

/-- `total_amount = Σ quantity * unit_price` (src/sales/services.py
lines 69-71: `item_total = Decimal(str(item["quantity"])) * unit_price`). -/
def itemsTotal (items : List SaleItemInput) : ℚ :=
  (items.map (fun it => (it.quantity : ℚ) * it.unit_price)).sum

/-- The outcome of the allocation loop of `add_payment`. -/
structure AllocResult where
  sales : List Sale
  links : List SalePaymentLink
  pool_left : ℚ
  total_allocated : ℚ
deriving DecidableEq, Repr

/-- Updating one sale inside the allocation loop (src/payments/services.py
lines 71-79): `sale.amount_paid += applied`, then `FULLY_PAID` iff
`sale.amount_paid >= sale.total_amount`, else `PARTIALLY_PAID`. -/
def applyAmount (s : Sale) (applied : ℚ) : Sale :=
  { s with
    amount_paid := s.amount_paid + applied
    status :=
      if s.total_amount ≤ s.amount_paid + applied then
        SaleStatus.FULLY_PAID
      else
        SaleStatus.PARTIALLY_PAID }

/-- The allocation loop of `add_payment` (src/payments/services.py lines
35-79).  The query selects the sales with `status != FULLY_PAID` in
creation order; the loop breaks once `amount_to_allocate <= 0`, and
otherwise applies `applied = min(amount_to_allocate, total_amount -
amount_paid)` to the sale, records a `SalePaymentLink` with the new
payment's id `pid`, and recomputes the status.  Here the whole sales list
is walked with its index `i`: a `FULLY_PAID` sale is skipped (it is absent
from the query's result), and once the pool is `≤ 0` every later sale is
left unchanged, which is exactly the loop's `break` since the pool never
changes again. -/
def allocateToSales (pid : Nat) : Nat → ℚ → List Sale → AllocResult
  | _, pool, [] => ⟨[], [], pool, 0⟩
  | i, pool, s :: rest =>
    if s.status = SaleStatus.FULLY_PAID then
      let r := allocateToSales pid (i + 1) pool rest
      { r with sales := s :: r.sales }
    else if pool ≤ 0 then
      let r := allocateToSales pid (i + 1) pool rest
      { r with sales := s :: r.sales }
    else
      let applied := min pool (s.total_amount - s.amount_paid)
      let r := allocateToSales pid (i + 1) (pool - applied) rest
      { sales := applyAmount s applied :: r.sales
        links := ⟨i, pid, applied⟩ :: r.links
        pool_left := r.pool_left
        total_allocated := r.total_allocated + applied }

/-- `PaymentServices.add_payment` (src/payments/services.py lines 18-98)
for an existing customer: the new `Payment` row is created first (id =
index `st.payments.length`), the pool `amount + credit_balance` is walked
over the non-`FULLY_PAID` sales oldest first, and then
`total_debt = max(0, total_debt - total_allocated)` and
`credit_balance = amount_to_allocate if amount_to_allocate > 0 else 0`. -/
def add_payment (payment_input : PaymentInput) (st : State) : State :=
  let pid := st.payments.length
  let pool := payment_input.amount + st.customer.credit_balance
  let r := allocateToSales pid 0 pool st.sales
  let new_debt := st.customer.total_debt - r.total_allocated
  { customer :=
      { total_debt := if new_debt < 0 then 0 else new_debt
        credit_balance := if 0 < r.pool_left then r.pool_left else 0 }
    sales := r.sales
    payments := st.payments ++ [⟨payment_input.amount, some payment_input.payment_type⟩]
    links := st.links ++ r.links }

/-- `SaleServices.create_sale` (src/sales/services.py lines 18-178) after
product/size resolution, for an existing customer.
`effective_payment = upfront_payment + credit_balance`;
`amount_applied_to_sale = min(effective_payment, total_amount)`;
`credit_used_for_sale = max(0, amount_applied_to_sale - upfront_payment)`;
status and `amount_paid` from lines 99-107; the balance "seesaw" from
lines 112-135 (a positive remainder first pays down existing
`total_debt`, without touching any existing sale row); a `Payment` and a
`SalePaymentLink` for `min(upfront_payment, total_amount)` only when
`upfront_payment > 0` (lines 143-163). -/
def create_sale (items : List SaleItemInput) (upfront_payment : ℚ)
    (payment_type : Option PaymentType) (st : State) : State :=
  let total_amount := itemsTotal items
  let effective_payment := upfront_payment + st.customer.credit_balance
  let amount_applied_to_sale := min effective_payment total_amount
  let credit_used_for_sale := max 0 (amount_applied_to_sale - upfront_payment)
  let stat : SaleStatus :=
    if total_amount ≤ amount_applied_to_sale then SaleStatus.FULLY_PAID
    else if 0 < amount_applied_to_sale then SaleStatus.PARTIALLY_PAID
    else SaleStatus.UNPAID
  let paid : ℚ :=
    if total_amount ≤ amount_applied_to_sale then total_amount
    else if 0 < amount_applied_to_sale then amount_applied_to_sale
    else 0
  let remaining_effective := effective_payment - amount_applied_to_sale
  let new_debt_from_sale := total_amount - amount_applied_to_sale
  let customer' : Customer :=
    if 0 < remaining_effective then
      if 0 < st.customer.total_debt then
        if st.customer.total_debt ≤ remaining_effective then
          { total_debt := 0
            credit_balance := remaining_effective - st.customer.total_debt }
        else
          { total_debt := st.customer.total_debt - remaining_effective
            credit_balance := 0 }
      else
        { total_debt := st.customer.total_debt
          credit_balance := remaining_effective }
    else
      { total_debt := st.customer.total_debt + new_debt_from_sale
        credit_balance := 0 }
  let new_sale : Sale :=
    { total_amount := total_amount
      amount_paid := paid
      credit_applied := credit_used_for_sale
      status := stat }
  let sid := st.sales.length
  if 0 < upfront_payment then
    { customer := customer'
      sales := st.sales ++ [new_sale]
      payments := st.payments ++ [⟨upfront_payment, payment_type⟩]
      links := st.links ++ [⟨sid, st.payments.length, min upfront_payment total_amount⟩] }
  else
    { customer := customer'
      sales := st.sales ++ [new_sale]
      payments := st.payments
      links := st.links }

/-- A freshly created customer (src/customers/services.py
`create_customer`): `CustomerCreate` carries only a name, so the model
defaults `credit_balance = 0.00`, `total_debt = 0.00` apply, and the
customer has no sales, payments or links. -/
def genesis : State :=
  { customer := { credit_balance := 0, total_debt := 0 }
    sales := []
    payments := []
    links := [] }

/-- One completed service call on the customer's ledger.  A payment's
amount is unconstrained (the input schema does not validate it); a sale's
inputs are the validated inputs of the spec's interface: `upfront_payment
≥ 0`, every line item with positive quantity and a non-negative resolved
unit price. -/
inductive Step : State → State → Prop where
  | pay (a : ℚ) (pt : PaymentType) (st : State) :
      Step st (add_payment ⟨a, pt⟩ st)
  | sale (items : List SaleItemInput) (u : ℚ) (pt : Option PaymentType)
      (st : State) (hu : 0 ≤ u)
      (hitems : ∀ it ∈ items, 0 < it.quantity ∧ 0 ≤ it.unit_price) :
      Step st (create_sale items u pt st)

/-- The settled states of one customer's ledger: what a sequence of
completed `add_payment` / `create_sale` calls can produce from a fresh
customer. -/
inductive Reachable : State → Prop where
  | init : Reachable genesis
  | step {s t : State} : Reachable s → Step s t → Reachable t

/-- The remaining balance of a sale. -/
def saleBalance (s : Sale) : ℚ := s.total_amount - s.amount_paid

/-- Sum of remaining balances over the non-`FULLY_PAID` sales. -/
def outstanding (sales : List Sale) : ℚ :=
  ((sales.filter fun s => s.status ≠ SaleStatus.FULLY_PAID).map saleBalance).sum

/-- Sum of `amount_applied` over the links of sale `i`. -/
def linkSumSale (st : State) (i : Nat) : ℚ :=
  ((st.links.filter fun l => l.sale_id = i).map SalePaymentLink.amount_applied).sum

/-- Sum of `amount_applied` over the links of payment `p`. -/
def linkSumPayment (st : State) (p : Nat) : ℚ :=
  ((st.links.filter fun l => l.payment_id = p).map SalePaymentLink.amount_applied).sum

/-! ### Case equations for the allocation loop -/

theorem allocateToSales_nil (pid i : Nat) (pool : ℚ) :
    allocateToSales pid i pool [] = ⟨[], [], pool, 0⟩ := rfl

theorem allocateToSales_cons_skip (pid i : Nat) (pool : ℚ) (s : Sale)
    (rest : List Sale) (h : s.status = SaleStatus.FULLY_PAID ∨ pool ≤ 0) :
    allocateToSales pid i pool (s :: rest) =
      { allocateToSales pid (i + 1) pool rest with
        sales := s :: (allocateToSales pid (i + 1) pool rest).sales } := by
  rcases h with h | h
  · simp [allocateToSales, h]
  · by_cases hf : s.status = SaleStatus.FULLY_PAID <;> simp [allocateToSales, hf, h]

theorem allocateToSales_cons_active (pid i : Nat) (pool : ℚ) (s : Sale)
    (rest : List Sale) (hf : s.status ≠ SaleStatus.FULLY_PAID) (hp : 0 < pool) :
    allocateToSales pid i pool (s :: rest) =
      { sales :=
          applyAmount s (min pool (s.total_amount - s.amount_paid)) ::
            (allocateToSales pid (i + 1)
              (pool - min pool (s.total_amount - s.amount_paid)) rest).sales
        links :=
          ⟨i, pid, min pool (s.total_amount - s.amount_paid)⟩ ::
            (allocateToSales pid (i + 1)
              (pool - min pool (s.total_amount - s.amount_paid)) rest).links
        pool_left :=
          (allocateToSales pid (i + 1)
            (pool - min pool (s.total_amount - s.amount_paid)) rest).pool_left
        total_allocated :=
          (allocateToSales pid (i + 1)
            (pool - min pool (s.total_amount - s.amount_paid)) rest).total_allocated +
            min pool (s.total_amount - s.amount_paid) } := by
  simp [allocateToSales, hf, not_le.mpr hp]

/-! ### Basic lemmas about the allocation loop -/

/-- With a non-positive pool the loop is the identity: this is the `break`
of the source loop. -/
theorem allocateToSales_nonpos (pid : Nat) (pool : ℚ) (ss : List Sale)
    (h : pool ≤ 0) : ∀ i, allocateToSales pid i pool ss = ⟨ss, [], pool, 0⟩ := by
  induction ss with
  | nil => intro i; rfl
  | cons s rest ih =>
    intro i
    rw [allocateToSales_cons_skip pid i pool s rest (Or.inr h), ih]

/-- Pool conservation: what is left plus what was allocated is the pool. -/
theorem allocateToSales_pool_add (pid : Nat) (pool : ℚ) (ss : List Sale) :
    ∀ i, (allocateToSales pid i pool ss).pool_left +
      (allocateToSales pid i pool ss).total_allocated = pool := by
  induction ss generalizing pool with
  | nil => intro i; simp [allocateToSales_nil]
  | cons s rest ih =>
    intro i
    by_cases hf : s.status = SaleStatus.FULLY_PAID
    · rw [allocateToSales_cons_skip pid i pool s rest (Or.inl hf)]
      exact ih pool (i + 1)
    · by_cases hp : pool ≤ 0
      · rw [allocateToSales_cons_skip pid i pool s rest (Or.inr hp)]
        exact ih pool (i + 1)
      · rw [allocateToSales_cons_active pid i pool s rest hf (not_le.mp hp)]
        have := ih (pool - min pool (s.total_amount - s.amount_paid)) (i + 1)
        simp only []
        linarith

/-- The loop preserves the number of sales. -/
theorem allocateToSales_length (pid : Nat) (pool : ℚ) (ss : List Sale) :
    ∀ i, (allocateToSales pid i pool ss).sales.length = ss.length := by
  induction ss generalizing pool with
  | nil => intro i; simp [allocateToSales_nil]
  | cons s rest ih =>
    intro i
    by_cases hf : s.status = SaleStatus.FULLY_PAID
    · rw [allocateToSales_cons_skip pid i pool s rest (Or.inl hf)]
      simp [ih pool (i + 1)]
    · by_cases hp : pool ≤ 0
      · rw [allocateToSales_cons_skip pid i pool s rest (Or.inr hp)]
        simp [ih pool (i + 1)]
      · rw [allocateToSales_cons_active pid i pool s rest hf (not_le.mp hp)]
        simp [ih (pool - min pool (s.total_amount - s.amount_paid)) (i + 1)]

/-- The pool never becomes negative. -/
theorem allocateToSales_pool_left_nonneg (pid : Nat) (pool : ℚ) (ss : List Sale)
    (h : 0 ≤ pool) : ∀ i, 0 ≤ (allocateToSales pid i pool ss).pool_left := by
  induction ss generalizing pool with
  | nil => intro i; simpa [allocateToSales_nil] using h
  | cons s rest ih =>
    intro i
    by_cases hf : s.status = SaleStatus.FULLY_PAID
    · rw [allocateToSales_cons_skip pid i pool s rest (Or.inl hf)]
      exact ih pool h (i + 1)
    · by_cases hp : pool ≤ 0
      · rw [allocateToSales_cons_skip pid i pool s rest (Or.inr hp)]
        exact ih pool h (i + 1)
      · rw [allocateToSales_cons_active pid i pool s rest hf (not_le.mp hp)]
        exact ih _ (by simp) (i + 1)

theorem outstanding_nil : outstanding [] = 0 := rfl

theorem outstanding_cons (s : Sale) (l : List Sale) :
    outstanding (s :: l) =
      (if s.status = SaleStatus.FULLY_PAID then 0 else saleBalance s) + outstanding l := by
  by_cases h : s.status = SaleStatus.FULLY_PAID <;> simp [outstanding, h]

theorem outstanding_append (l₁ l₂ : List Sale) :
    outstanding (l₁ ++ l₂) = outstanding l₁ + outstanding l₂ := by
  simp [outstanding, List.filter_append]

theorem outstanding_nonneg (l : List Sale)
    (hb : ∀ s ∈ l, 0 ≤ s.amount_paid ∧ s.amount_paid ≤ s.total_amount) :
    0 ≤ outstanding l := by
  induction l with
  | nil => simp [outstanding_nil]
  | cons s rest ih =>
    have hs := hb s (by simp)
    have hr := ih fun x hx => hb x (by simp [hx])
    rw [outstanding_cons]
    have : 0 ≤ saleBalance s := by simp [saleBalance]; linarith [hs.2]
    by_cases h : s.status = SaleStatus.FULLY_PAID <;> simp [h] <;> linarith

/-- The loop's overall ledger identity: the outstanding balance drops by
exactly what was allocated. -/
theorem allocateToSales_outstanding (pid : Nat) (pool : ℚ) (ss : List Sale) :
    ∀ i, outstanding (allocateToSales pid i pool ss).sales =
      outstanding ss - (allocateToSales pid i pool ss).total_allocated := by
  induction ss generalizing pool with
  | nil => intro i; simp [allocateToSales_nil, outstanding_nil]
  | cons s rest ih =>
    intro i
    by_cases hf : s.status = SaleStatus.FULLY_PAID
    · rw [allocateToSales_cons_skip pid i pool s rest (Or.inl hf)]
      dsimp only
      rw [outstanding_cons, outstanding_cons, ih pool (i + 1)]
      ring
    · by_cases hp : pool ≤ 0
      · rw [allocateToSales_cons_skip pid i pool s rest (Or.inr hp)]
        dsimp only
        rw [outstanding_cons, outstanding_cons, ih pool (i + 1)]
        ring
      · rw [allocateToSales_cons_active pid i pool s rest hf (not_le.mp hp)]
        have hrec := ih (pool - min pool (s.total_amount - s.amount_paid)) (i + 1)
        dsimp only
        rw [outstanding_cons, outstanding_cons, hrec, if_neg hf]
        by_cases hful : s.total_amount ≤ s.amount_paid + min pool (s.total_amount - s.amount_paid)
        · have happ : min pool (s.total_amount - s.amount_paid) = s.total_amount - s.amount_paid := by
            have h1 : min pool (s.total_amount - s.amount_paid) ≤ s.total_amount - s.amount_paid :=
              min_le_right _ _
            linarith
          simp only [applyAmount, hful, if_pos, saleBalance]
          rw [happ]
          ring
        · simp only [applyAmount, saleBalance, if_neg hful]
          rw [if_neg (by simp)]
          ring

/-- The loop preserves the per-sale bounds `0 ≤ amount_paid ≤ total_amount`. -/
theorem allocateToSales_mem_bounds (pid : Nat) (pool : ℚ) (ss : List Sale)
    (hb : ∀ s ∈ ss, 0 ≤ s.amount_paid ∧ s.amount_paid ≤ s.total_amount) :
    ∀ i, ∀ s' ∈ (allocateToSales pid i pool ss).sales,
      0 ≤ s'.amount_paid ∧ s'.amount_paid ≤ s'.total_amount := by
  induction ss generalizing pool with
  | nil => intro i s' hs'; simp [allocateToSales_nil] at hs'
  | cons s rest ih =>
    intro i s' hs'
    have hs := hb s (by simp)
    have hbrest : ∀ x ∈ rest, 0 ≤ x.amount_paid ∧ x.amount_paid ≤ x.total_amount :=
      fun x hx => hb x (by simp [hx])
    by_cases hf : s.status = SaleStatus.FULLY_PAID
    · rw [allocateToSales_cons_skip pid i pool s rest (Or.inl hf)] at hs'
      dsimp only at hs'
      rcases List.mem_cons.mp hs' with rfl | h
      · exact hs
      · exact ih pool hbrest (i + 1) s' h
    · by_cases hp : pool ≤ 0
      · rw [allocateToSales_cons_skip pid i pool s rest (Or.inr hp)] at hs'
        dsimp only at hs'
        rcases List.mem_cons.mp hs' with rfl | h
        · exact hs
        · exact ih pool hbrest (i + 1) s' h
      · rw [allocateToSales_cons_active pid i pool s rest hf (not_le.mp hp)] at hs'
        dsimp only at hs'
        rcases List.mem_cons.mp hs' with rfl | h
        · have hap0 : 0 ≤ min pool (s.total_amount - s.amount_paid) :=
            le_min (le_of_lt (not_le.mp hp)) (by linarith [hs.2])
          have hap1 : min pool (s.total_amount - s.amount_paid) ≤
              s.total_amount - s.amount_paid := min_le_right _ _
          constructor
          · simp only [applyAmount]
            linarith [hs.1]
          · simp only [applyAmount]
            linarith
        · exact ih _ hbrest (i + 1) s' h

/-- The loop preserves "a `FULLY_PAID` sale is paid exactly its total". -/
theorem allocateToSales_mem_fully (pid : Nat) (pool : ℚ) (ss : List Sale)
    (hb : ∀ s ∈ ss, 0 ≤ s.amount_paid ∧ s.amount_paid ≤ s.total_amount)
    (hfull : ∀ s ∈ ss, s.status = SaleStatus.FULLY_PAID → s.amount_paid = s.total_amount) :
    ∀ i, ∀ s' ∈ (allocateToSales pid i pool ss).sales,
      s'.status = SaleStatus.FULLY_PAID → s'.amount_paid = s'.total_amount := by
  induction ss generalizing pool with
  | nil => intro i s' hs'; simp [allocateToSales_nil] at hs'
  | cons s rest ih =>
    intro i s' hs'
    have hs := hb s (by simp)
    have hbrest : ∀ x ∈ rest, 0 ≤ x.amount_paid ∧ x.amount_paid ≤ x.total_amount :=
      fun x hx => hb x (by simp [hx])
    have hfrest : ∀ x ∈ rest, x.status = SaleStatus.FULLY_PAID → x.amount_paid = x.total_amount :=
      fun x hx => hfull x (by simp [hx])
    have hfs := hfull s (by simp)
    by_cases hf : s.status = SaleStatus.FULLY_PAID
    · rw [allocateToSales_cons_skip pid i pool s rest (Or.inl hf)] at hs'
      dsimp only at hs'
      rcases List.mem_cons.mp hs' with rfl | h
      · exact hfs
      · exact ih pool hbrest hfrest (i + 1) s' h
    · by_cases hp : pool ≤ 0
      · rw [allocateToSales_cons_skip pid i pool s rest (Or.inr hp)] at hs'
        dsimp only at hs'
        rcases List.mem_cons.mp hs' with rfl | h
        · exact hfs
        · exact ih pool hbrest hfrest (i + 1) s' h
      · rw [allocateToSales_cons_active pid i pool s rest hf (not_le.mp hp)] at hs'
        dsimp only at hs'
        rcases List.mem_cons.mp hs' with rfl | h
        · intro hstat
          have hap1 : min pool (s.total_amount - s.amount_paid) ≤
              s.total_amount - s.amount_paid := min_le_right _ _
          by_cases hful : s.total_amount ≤ s.amount_paid + min pool (s.total_amount - s.amount_paid)
          · simp only [applyAmount]
            linarith
          · simp only [applyAmount, if_neg hful] at hstat
            exact absurd hstat (by simp)
        · exact ih _ hbrest hfrest (i + 1) s' h

/-- Nothing negative is ever allocated (given the per-sale bounds). -/
theorem allocateToSales_links_nonneg (pid : Nat) (pool : ℚ) (ss : List Sale)
    (hb : ∀ s ∈ ss, 0 ≤ s.amount_paid ∧ s.amount_paid ≤ s.total_amount) :
    ∀ i, ∀ l ∈ (allocateToSales pid i pool ss).links, 0 ≤ l.amount_applied := by
  induction ss generalizing pool with
  | nil => intro i l hl; simp [allocateToSales_nil] at hl
  | cons s rest ih =>
    intro i l hl
    have hs := hb s (by simp)
    have hbrest : ∀ x ∈ rest, 0 ≤ x.amount_paid ∧ x.amount_paid ≤ x.total_amount :=
      fun x hx => hb x (by simp [hx])
    by_cases hf : s.status = SaleStatus.FULLY_PAID
    · rw [allocateToSales_cons_skip pid i pool s rest (Or.inl hf)] at hl
      exact ih pool hbrest (i + 1) l hl
    · by_cases hp : pool ≤ 0
      · rw [allocateToSales_cons_skip pid i pool s rest (Or.inr hp)] at hl
        exact ih pool hbrest (i + 1) l hl
      · rw [allocateToSales_cons_active pid i pool s rest hf (not_le.mp hp)] at hl
        dsimp only at hl
        rcases List.mem_cons.mp hl with rfl | h
        · exact le_min (le_of_lt (not_le.mp hp)) (by linarith [hs.2])
        · exact ih _ hbrest (i + 1) l h

/-- Every link the loop creates carries the new payment's id. -/
theorem allocateToSales_links_pid (pid : Nat) (pool : ℚ) (ss : List Sale) :
    ∀ i, ∀ l ∈ (allocateToSales pid i pool ss).links, l.payment_id = pid := by
  induction ss generalizing pool with
  | nil => intro i l hl; simp [allocateToSales_nil] at hl
  | cons s rest ih =>
    intro i l hl
    by_cases hf : s.status = SaleStatus.FULLY_PAID
    · rw [allocateToSales_cons_skip pid i pool s rest (Or.inl hf)] at hl
      exact ih pool (i + 1) l hl
    · by_cases hp : pool ≤ 0
      · rw [allocateToSales_cons_skip pid i pool s rest (Or.inr hp)] at hl
        exact ih pool (i + 1) l hl
      · rw [allocateToSales_cons_active pid i pool s rest hf (not_le.mp hp)] at hl
        dsimp only at hl
        rcases List.mem_cons.mp hl with rfl | h
        · rfl
        · exact ih _ (i + 1) l h

/-- Every link the loop creates points at one of the walked sales. -/
theorem allocateToSales_links_sid (pid : Nat) (pool : ℚ) (ss : List Sale) :
    ∀ i, ∀ l ∈ (allocateToSales pid i pool ss).links,
      i ≤ l.sale_id ∧ l.sale_id < i + ss.length := by
  induction ss generalizing pool with
  | nil => intro i l hl; simp [allocateToSales_nil] at hl
  | cons s rest ih =>
    intro i l hl
    by_cases hf : s.status = SaleStatus.FULLY_PAID
    · rw [allocateToSales_cons_skip pid i pool s rest (Or.inl hf)] at hl
      have h2 := ih pool (i + 1) l hl
      simp only [List.length_cons]
      omega
    · by_cases hp : pool ≤ 0
      · rw [allocateToSales_cons_skip pid i pool s rest (Or.inr hp)] at hl
        have h2 := ih pool (i + 1) l hl
        simp only [List.length_cons]
        omega
      · rw [allocateToSales_cons_active pid i pool s rest hf (not_le.mp hp)] at hl
        dsimp only at hl
        rcases List.mem_cons.mp hl with rfl | h
        · simp only [List.length_cons]
          omega
        · have h2 := ih _ (i + 1) l h
          simp only [List.length_cons]
          omega

/-- The loop's links sum to the total it allocated. -/
theorem allocateToSales_links_sum (pid : Nat) (pool : ℚ) (ss : List Sale) :
    ∀ i, (((allocateToSales pid i pool ss).links).map SalePaymentLink.amount_applied).sum =
      (allocateToSales pid i pool ss).total_allocated := by
  induction ss generalizing pool with
  | nil => intro i; simp [allocateToSales_nil]
  | cons s rest ih =>
    intro i
    by_cases hf : s.status = SaleStatus.FULLY_PAID
    · rw [allocateToSales_cons_skip pid i pool s rest (Or.inl hf)]
      exact ih pool (i + 1)
    · by_cases hp : pool ≤ 0
      · rw [allocateToSales_cons_skip pid i pool s rest (Or.inr hp)]
        exact ih pool (i + 1)
      · rw [allocateToSales_cons_active pid i pool s rest hf (not_le.mp hp)]
        dsimp only
        rw [List.map_cons, List.sum_cons, ih _ (i + 1)]
        ring

/-- If any pool is left at the end of the walk, every outstanding balance
was fully allocated. -/
theorem allocateToSales_pool_left_pos (pid : Nat) (pool : ℚ) (ss : List Sale) :
    ∀ i, 0 < (allocateToSales pid i pool ss).pool_left →
      (allocateToSales pid i pool ss).total_allocated = outstanding ss := by
  induction ss generalizing pool with
  | nil => intro i _; simp [allocateToSales_nil, outstanding_nil]
  | cons s rest ih =>
    intro i h
    by_cases hf : s.status = SaleStatus.FULLY_PAID
    · rw [allocateToSales_cons_skip pid i pool s rest (Or.inl hf)] at h ⊢
      dsimp only at h ⊢
      rw [outstanding_cons, if_pos hf, ih pool (i + 1) h]
      ring
    · by_cases hp : pool ≤ 0
      · rw [allocateToSales_nonpos pid pool (s :: rest) hp i] at h
        dsimp only at h
        linarith
      · rw [allocateToSales_cons_active pid i pool s rest hf (not_le.mp hp)] at h ⊢
        dsimp only at h ⊢
        by_cases hp2 : pool - min pool (s.total_amount - s.amount_paid) ≤ 0
        · rw [allocateToSales_nonpos pid _ rest hp2 (i + 1)] at h
          dsimp only at h
          linarith
        · have happ : min pool (s.total_amount - s.amount_paid) = s.total_amount - s.amount_paid := by
            rcases min_cases pool (s.total_amount - s.amount_paid) with ⟨e, _⟩ | ⟨e, _⟩
            · rw [e] at hp2
              simp at hp2
            · exact e
          rw [ih _ (i + 1) h, outstanding_cons, if_neg hf, saleBalance, happ]
          ring

/-- No link of the loop points below the starting index. -/
theorem allocateToSales_filter_lt (pid : Nat) (pool : ℚ) (ss : List Sale)
    (i j : Nat) (hj : j < i) :
    (allocateToSales pid i pool ss).links.filter (fun l => l.sale_id = j) = [] := by
  refine List.filter_eq_nil_iff.mpr fun l hl => ?_
  have := allocateToSales_links_sid pid pool ss i l hl
  simp only [decide_eq_true_eq]
  omega

/-- Positional description of the loop: every sale keeps its
`total_amount` and `credit_applied`, a `FULLY_PAID` sale is untouched, and
a sale's `amount_paid` grows by exactly the sum of the links the loop
created for it. -/
theorem allocateToSales_get? (pid : Nat) (pool : ℚ) (ss : List Sale) :
    ∀ i k,
      ((allocateToSales pid i pool ss).sales.get? k).map Sale.total_amount =
          (ss.get? k).map Sale.total_amount ∧
      ((allocateToSales pid i pool ss).sales.get? k).map Sale.credit_applied =
          (ss.get? k).map Sale.credit_applied ∧
      (∀ s0, ss.get? k = some s0 → s0.status = SaleStatus.FULLY_PAID →
          (allocateToSales pid i pool ss).sales.get? k = some s0) ∧
      ((allocateToSales pid i pool ss).sales.get? k).map Sale.amount_paid =
          (ss.get? k).map (fun s0 => s0.amount_paid +
            (((allocateToSales pid i pool ss).links.filter fun l => l.sale_id = i + k).map
              SalePaymentLink.amount_applied).sum) := by
  induction ss generalizing pool with
  | nil => intro i k; simp [allocateToSales_nil]
  | cons s rest ih =>
    intro i k
    by_cases hf : s.status = SaleStatus.FULLY_PAID
    · rw [allocateToSales_cons_skip pid i pool s rest (Or.inl hf)]
      dsimp only
      cases k with
      | zero =>
        have hnil := allocateToSales_filter_lt pid pool rest (i + 1) i (by omega)
        simp [hnil]
      | succ k =>
        have harith : i + (k + 1) = (i + 1) + k := by omega
        have := ih pool (i + 1) k
        simpa [harith] using this
    · by_cases hp : pool ≤ 0
      · rw [allocateToSales_cons_skip pid i pool s rest (Or.inr hp)]
        dsimp only
        cases k with
        | zero =>
          have hnil := allocateToSales_filter_lt pid pool rest (i + 1) i (by omega)
          simp [hnil]
        | succ k =>
          have harith : i + (k + 1) = (i + 1) + k := by omega
          have := ih pool (i + 1) k
          simpa [harith] using this
      · rw [allocateToSales_cons_active pid i pool s rest hf (not_le.mp hp)]
        dsimp only
        cases k with
        | zero =>
          have hnil := allocateToSales_filter_lt pid
            (pool - min pool (s.total_amount - s.amount_paid)) rest (i + 1) i
            (by omega)
          refine ⟨by simp [applyAmount], by simp [applyAmount], ?_, ?_⟩
          · intro s0 hs0 hstat
            simp only [List.get?_cons_zero, Option.some.injEq] at hs0
            subst hs0
            exact absurd hstat hf
          · simp [applyAmount, List.filter_cons, hnil]
        | succ k =>
          have harith : i + (k + 1) = (i + 1) + k := by omega
          have hne : ¬ (i = i + 1 + k) := by omega
          have := ih (pool - min pool (s.total_amount - s.amount_paid)) (i + 1) k
          simpa [harith, List.filter_cons, hne] using this

/-! ### Equations for `create_sale` -/

theorem itemsTotal_nonneg (items : List SaleItemInput)
    (h : ∀ it ∈ items, 0 < it.quantity ∧ 0 ≤ it.unit_price) : 0 ≤ itemsTotal items := by
  induction items with
  | nil => simp [itemsTotal]
  | cons it rest ih =>
    have h1 := h it (by simp)
    have h2 : 0 ≤ itemsTotal rest := ih fun x hx => h x (by simp [hx])
    have h3 : (0 : ℚ) ≤ (it.quantity : ℚ) * it.unit_price := by
      have : (0 : ℚ) ≤ (it.quantity : ℚ) := by exact_mod_cast le_of_lt h1.1
      exact mul_nonneg this h1.2
    simp only [itemsTotal, List.map_cons, List.sum_cons] at *
    linarith

/-- The sale row `create_sale` appends, in the raw shape of
src/sales/services.py lines 99-110. -/
def newSaleOf (items : List SaleItemInput) (upfront_payment : ℚ) (st : State) : Sale :=
  let total_amount := itemsTotal items
  let amount_applied_to_sale := min (upfront_payment + st.customer.credit_balance) total_amount
  { total_amount := total_amount
    amount_paid :=
      if total_amount ≤ amount_applied_to_sale then total_amount
      else if 0 < amount_applied_to_sale then amount_applied_to_sale
      else 0
    credit_applied := max 0 (amount_applied_to_sale - upfront_payment)
    status :=
      if total_amount ≤ amount_applied_to_sale then SaleStatus.FULLY_PAID
      else if 0 < amount_applied_to_sale then SaleStatus.PARTIALLY_PAID
      else SaleStatus.UNPAID }

theorem create_sale_sales (items : List SaleItemInput) (u : ℚ)
    (pt : Option PaymentType) (st : State) :
    (create_sale items u pt st).sales = st.sales ++ [newSaleOf items u st] := by
  by_cases h : 0 < u <;> simp [create_sale, newSaleOf, h]

theorem create_sale_payments_pos (items : List SaleItemInput) (u : ℚ)
    (pt : Option PaymentType) (st : State) (h : 0 < u) :
    (create_sale items u pt st).payments = st.payments ++ [⟨u, pt⟩] := by
  simp [create_sale, h]

theorem create_sale_payments_nonpos (items : List SaleItemInput) (u : ℚ)
    (pt : Option PaymentType) (st : State) (h : ¬ 0 < u) :
    (create_sale items u pt st).payments = st.payments := by
  simp [create_sale, h]

theorem create_sale_links_pos (items : List SaleItemInput) (u : ℚ)
    (pt : Option PaymentType) (st : State) (h : 0 < u) :
    (create_sale items u pt st).links =
      st.links ++ [⟨st.sales.length, st.payments.length, min u (itemsTotal items)⟩] := by
  simp [create_sale, h]

theorem create_sale_links_nonpos (items : List SaleItemInput) (u : ℚ)
    (pt : Option PaymentType) (st : State) (h : ¬ 0 < u) :
    (create_sale items u pt st).links = st.links := by
  simp [create_sale, h]

/-- The remainder of the effective payment is never negative. -/
theorem remaining_nonneg (eff T : ℚ) : 0 ≤ eff - min eff T := by
  rcases min_cases eff T with ⟨e, _⟩ | ⟨e, _⟩ <;> rw [e] <;> linarith

/-- If anything of the effective payment remains, the whole sale total was
covered. -/
theorem rem_pos_min (eff T : ℚ) (h : 0 < eff - min eff T) : min eff T = T := by
  rcases min_cases eff T with ⟨e, _⟩ | ⟨e, _⟩
  · rw [e] at h
    linarith
  · exact e

/-- The customer record `create_sale` writes, as one nested conditional
(src/sales/services.py lines 112-135). -/
theorem create_sale_customer (items : List SaleItemInput) (u : ℚ)
    (pt : Option PaymentType) (st : State) :
    (create_sale items u pt st).customer =
      (if 0 < u + st.customer.credit_balance -
          min (u + st.customer.credit_balance) (itemsTotal items) then
        if 0 < st.customer.total_debt then
          if st.customer.total_debt ≤ u + st.customer.credit_balance -
              min (u + st.customer.credit_balance) (itemsTotal items) then
            { credit_balance := u + st.customer.credit_balance -
                min (u + st.customer.credit_balance) (itemsTotal items) -
                st.customer.total_debt
              total_debt := 0 }
          else
            { credit_balance := 0
              total_debt := st.customer.total_debt - (u + st.customer.credit_balance -
                min (u + st.customer.credit_balance) (itemsTotal items)) }
        else
          { credit_balance := u + st.customer.credit_balance -
              min (u + st.customer.credit_balance) (itemsTotal items)
            total_debt := st.customer.total_debt }
      else
        { credit_balance := 0
          total_debt := st.customer.total_debt +
            (itemsTotal items - min (u + st.customer.credit_balance) (itemsTotal items)) }) := by
  by_cases h : 0 < u <;> simp [create_sale, h]

/-- Balance update of `create_sale` (src/sales/services.py lines 112-135),
in closed form: the leftover first pays down the existing debt, only the
excess becomes credit. -/
theorem create_sale_credit (items : List SaleItemInput) (u : ℚ)
    (pt : Option PaymentType) (st : State) (hd : 0 ≤ st.customer.total_debt) :
    (create_sale items u pt st).customer.credit_balance =
      max 0 ((u + st.customer.credit_balance -
        min (u + st.customer.credit_balance) (itemsTotal items)) - st.customer.total_debt) := by
  have hrem := remaining_nonneg (u + st.customer.credit_balance) (itemsTotal items)
  rw [create_sale_customer]
  split_ifs with h1 h2 h3 <;> dsimp only
  · exact (max_eq_right (by linarith)).symm
  · exact (max_eq_left (by linarith)).symm
  · have hd0 : st.customer.total_debt = 0 := le_antisymm (not_lt.mp h2) hd
    rw [hd0, sub_zero]
    exact (max_eq_right (by linarith)).symm
  · exact (max_eq_left (by linarith [not_lt.mp h1])).symm

/-- Debt update of `create_sale` in closed form: `max 0 (d − leftover)`
plus the unpaid part of the new sale. -/
theorem create_sale_debt (items : List SaleItemInput) (u : ℚ)
    (pt : Option PaymentType) (st : State) (hd : 0 ≤ st.customer.total_debt) :
    (create_sale items u pt st).customer.total_debt =
      max 0 (st.customer.total_debt - (u + st.customer.credit_balance -
        min (u + st.customer.credit_balance) (itemsTotal items))) +
      (itemsTotal items - min (u + st.customer.credit_balance) (itemsTotal items)) := by
  have hrem := remaining_nonneg (u + st.customer.credit_balance) (itemsTotal items)
  rw [create_sale_customer]
  split_ifs with h1 h2 h3 <;> dsimp only
  · have hmin := rem_pos_min _ _ h1
    rw [hmin] at h1 h3 ⊢
    rw [max_eq_left (by linarith)]
    ring
  · have hmin := rem_pos_min _ _ h1
    rw [hmin] at h1 h3 ⊢
    rw [max_eq_right (by linarith [not_le.mp h3])]
    ring
  · have hmin := rem_pos_min _ _ h1
    have hd0 : st.customer.total_debt = 0 := le_antisymm (not_lt.mp h2) hd
    rw [hmin] at h1 ⊢
    rw [hd0, max_eq_left (by linarith)]
    ring
  · have h0 : u + st.customer.credit_balance -
        min (u + st.customer.credit_balance) (itemsTotal items) = 0 :=
      le_antisymm (not_lt.mp h1) hrem
    rw [h0, sub_zero, max_eq_right hd]

/-! ### The ledger invariant -/

/-- The invariant of a settled ledger state: non-negative balances that are
never both positive, per-sale payment bounds, a `FULLY_PAID` sale is paid
exactly its total, the aggregate debt never exceeds the outstanding per-sale
balances, links reference existing rows, and every sale's links sum to
`amount_paid - credit_applied`. -/
structure Inv (st : State) : Prop where
  credit_nonneg : 0 ≤ st.customer.credit_balance
  debt_nonneg : 0 ≤ st.customer.total_debt
  seesaw : st.customer.credit_balance = 0 ∨ st.customer.total_debt = 0
  sale_bounds : ∀ s ∈ st.sales, 0 ≤ s.amount_paid ∧ s.amount_paid ≤ s.total_amount
  sale_fully : ∀ s ∈ st.sales, s.status = SaleStatus.FULLY_PAID → s.amount_paid = s.total_amount
  debt_le : st.customer.total_debt ≤ outstanding st.sales
  link_sale_lt : ∀ l ∈ st.links, l.sale_id < st.sales.length
  link_payment_lt : ∀ l ∈ st.links, l.payment_id < st.payments.length
  recon : ∀ k s0, st.sales.get? k = some s0 →
    linkSumSale st k = s0.amount_paid - s0.credit_applied

theorem genesis_inv : Inv genesis := by
  refine ⟨?_, ?_, ?_, ?_, ?_, ?_, ?_, ?_, ?_⟩ <;> simp [genesis, outstanding_nil, linkSumSale]

/-- The allocation run of one `add_payment` call. -/
def payAlloc (payment_input : PaymentInput) (st : State) : AllocResult :=
  allocateToSales st.payments.length 0
    (payment_input.amount + st.customer.credit_balance) st.sales

theorem add_payment_def (payment_input : PaymentInput) (st : State) :
    add_payment payment_input st =
      { customer :=
          { credit_balance :=
              if 0 < (payAlloc payment_input st).pool_left then
                (payAlloc payment_input st).pool_left
              else 0
            total_debt :=
              if st.customer.total_debt - (payAlloc payment_input st).total_allocated < 0 then 0
              else st.customer.total_debt - (payAlloc payment_input st).total_allocated }
        sales := (payAlloc payment_input st).sales
        payments := st.payments ++ [⟨payment_input.amount, some payment_input.payment_type⟩]
        links := st.links ++ (payAlloc payment_input st).links } := rfl

theorem add_payment_inv (payment_input : PaymentInput) (st : State) (h : Inv st) :
    Inv (add_payment payment_input st) := by
  obtain ⟨hc, hd, hsee, hb, hful, hdle, hsl, hpl, hrec⟩ := h
  have hlen : (payAlloc payment_input st).sales.length = st.sales.length :=
    allocateToSales_length _ _ _ 0
  have hout : outstanding (payAlloc payment_input st).sales =
      outstanding st.sales - (payAlloc payment_input st).total_allocated :=
    allocateToSales_outstanding _ _ _ 0
  have hbnd : ∀ s' ∈ (payAlloc payment_input st).sales,
      0 ≤ s'.amount_paid ∧ s'.amount_paid ≤ s'.total_amount :=
    allocateToSales_mem_bounds _ _ _ hb 0
  have hfullalloc : 0 < (payAlloc payment_input st).pool_left →
      (payAlloc payment_input st).total_allocated = outstanding st.sales :=
    allocateToSales_pool_left_pos _ _ _ 0
  rw [add_payment_def]
  refine ⟨?_, ?_, ?_, ?_, ?_, ?_, ?_, ?_, ?_⟩
  · dsimp only
    split_ifs with hp
    · exact le_of_lt hp
    · exact le_refl 0
  · dsimp only
    split_ifs with hq
    · exact le_refl 0
    · linarith [not_lt.mp hq]
  · dsimp only
    by_cases hp : 0 < (payAlloc payment_input st).pool_left
    · right
      rw [hfullalloc hp]
      split_ifs with hq
      · rfl
      · linarith [not_lt.mp hq]
    · left
      rw [if_neg hp]
  · dsimp only
    exact hbnd
  · dsimp only
    exact allocateToSales_mem_fully _ _ _ hb hful 0
  · dsimp only
    have hout0 : 0 ≤ outstanding (payAlloc payment_input st).sales :=
      outstanding_nonneg _ hbnd
    split_ifs with hq
    · linarith [hout, hout0]
    · linarith [hout, hdle]
  · dsimp only
    intro l hl
    rcases List.mem_append.mp hl with hmem | hmem
    · rw [hlen]
      exact hsl l hmem
    · have := allocateToSales_links_sid st.payments.length
        (payment_input.amount + st.customer.credit_balance) st.sales 0 l hmem
      rw [hlen]
      omega
  · dsimp only
    intro l hl
    rcases List.mem_append.mp hl with hmem | hmem
    · have := hpl l hmem
      simp only [List.length_append, List.length_cons, List.length_nil]
      omega
    · have := allocateToSales_links_pid st.payments.length
        (payment_input.amount + st.customer.credit_balance) st.sales 0 l hmem
      simp only [List.length_append, List.length_cons, List.length_nil]
      omega
  · intro k s0 hk
    dsimp only at hk
    simp only [payAlloc] at hk
    have hget := allocateToSales_get? st.payments.length
      (payment_input.amount + st.customer.credit_balance) st.sales 0 k
    simp only [Nat.zero_add] at hget
    obtain ⟨-, hca, -, hpaid⟩ := hget
    rw [hk] at hca hpaid
    cases hsome : st.sales.get? k with
    | none =>
      rw [hsome] at hpaid
      simp at hpaid
    | some s1 =>
      rw [hsome] at hca hpaid
      simp only [Option.map_some', Option.some.injEq] at hca hpaid
      have hold := hrec k s1 hsome
      simp only [linkSumSale] at hold ⊢
      simp only [payAlloc]
      rw [List.filter_append, List.map_append, List.sum_append, hold, hca, hpaid]
      ring

/-! ### Properties of the sale row `create_sale` appends -/

theorem newSaleOf_total (items : List SaleItemInput) (u : ℚ) (st : State) :
    (newSaleOf items u st).total_amount = itemsTotal items := rfl

theorem newSaleOf_ca (items : List SaleItemInput) (u : ℚ) (st : State) :
    (newSaleOf items u st).credit_applied =
      max 0 (min (u + st.customer.credit_balance) (itemsTotal items) - u) := rfl

theorem newSaleOf_paid (items : List SaleItemInput) (u : ℚ) (st : State)
    (hap : 0 ≤ min (u + st.customer.credit_balance) (itemsTotal items)) :
    (newSaleOf items u st).amount_paid =
      min (u + st.customer.credit_balance) (itemsTotal items) := by
  unfold newSaleOf
  dsimp only
  split_ifs with h1 h2
  · exact (le_antisymm (min_le_right _ _) h1).symm
  · rfl
  · exact (le_antisymm (not_lt.mp h2) hap).symm

theorem newSaleOf_bounds (items : List SaleItemInput) (u : ℚ) (st : State)
    (hT : 0 ≤ itemsTotal items) :
    0 ≤ (newSaleOf items u st).amount_paid ∧
      (newSaleOf items u st).amount_paid ≤ (newSaleOf items u st).total_amount := by
  unfold newSaleOf
  dsimp only
  split_ifs with h1 h2
  · exact ⟨hT, le_refl _⟩
  · exact ⟨le_of_lt h2, min_le_right _ _⟩
  · exact ⟨le_refl 0, hT⟩

theorem newSaleOf_fully (items : List SaleItemInput) (u : ℚ) (st : State) :
    (newSaleOf items u st).status = SaleStatus.FULLY_PAID →
      (newSaleOf items u st).amount_paid = (newSaleOf items u st).total_amount := by
  unfold newSaleOf
  dsimp only
  split_ifs with h1 h2
  · intro _
    rfl
  · intro hst
    exact absurd hst (by simp)
  · intro hst
    exact absurd hst (by simp)

theorem newSaleOf_outstanding (items : List SaleItemInput) (u : ℚ) (st : State)
    (hap : 0 ≤ min (u + st.customer.credit_balance) (itemsTotal items)) :
    outstanding [newSaleOf items u st] =
      itemsTotal items - min (u + st.customer.credit_balance) (itemsTotal items) := by
  by_cases h1 : itemsTotal items ≤ min (u + st.customer.credit_balance) (itemsTotal items)
  · have hapT : min (u + st.customer.credit_balance) (itemsTotal items) = itemsTotal items :=
      le_antisymm (min_le_right _ _) h1
    simp [outstanding, newSaleOf, saleBalance, h1, hapT]
  · by_cases h2 : 0 < min (u + st.customer.credit_balance) (itemsTotal items)
    · simp [outstanding, newSaleOf, saleBalance, h1, h2]
    · have h0 : min (u + st.customer.credit_balance) (itemsTotal items) = 0 :=
        le_antisymm (not_lt.mp h2) hap
      have hT0 : ¬ itemsTotal items ≤ (0 : ℚ) := by
        rw [h0] at h1
        exact h1
      simp [outstanding, newSaleOf, saleBalance, h1, h2, h0, hT0]

/-- What the appended sale contributes to the link reconciliation:
`amount_paid - credit_applied` is exactly the linked upfront portion
`min(upfront, total)` — and `0` when no upfront payment (hence no link). -/
theorem newSaleOf_recon (items : List SaleItemInput) (u : ℚ) (st : State)
    (hu : 0 ≤ u) (hc : 0 ≤ st.customer.credit_balance) (hT : 0 ≤ itemsTotal items) :
    (newSaleOf items u st).amount_paid - (newSaleOf items u st).credit_applied =
      if 0 < u then min u (itemsTotal items) else 0 := by
  have hap : 0 ≤ min (u + st.customer.credit_balance) (itemsTotal items) :=
    le_min (by linarith) hT
  unfold newSaleOf
  dsimp only
  by_cases hu0 : 0 < u
  · rw [if_pos hu0]
    split_ifs with h1 h2
    · have hapT : min (u + st.customer.credit_balance) (itemsTotal items) = itemsTotal items :=
        le_antisymm (min_le_right _ _) h1
      rw [hapT]
      by_cases hTu : itemsTotal items ≤ u
      · rw [max_eq_left (by linarith), min_eq_right hTu]
        ring
      · rw [max_eq_right (by linarith [not_le.mp hTu]), min_eq_left (by linarith [not_le.mp hTu])]
        ring
    · have hlt : min (u + st.customer.credit_balance) (itemsTotal items) < itemsTotal items :=
        lt_of_le_of_ne (min_le_right _ _) (by
          intro e
          exact h1 (le_of_eq e.symm))
      have heq : min (u + st.customer.credit_balance) (itemsTotal items) =
          u + st.customer.credit_balance := by
        rcases min_cases (u + st.customer.credit_balance) (itemsTotal items) with ⟨e, _⟩ | ⟨e, le⟩
        · exact e
        · rw [e] at hlt
          linarith
      rw [heq, max_eq_right (by linarith), min_eq_left (by linarith)]
      ring
    · exfalso
      have h0 : min (u + st.customer.credit_balance) (itemsTotal items) = 0 :=
        le_antisymm (not_lt.mp h2) hap
      have hT0 : 0 < itemsTotal items := by
        rw [h0] at h1
        exact not_le.mp h1
      have hpos : 0 < min (u + st.customer.credit_balance) (itemsTotal items) :=
        lt_min (by linarith) hT0
      rw [h0] at hpos
      exact lt_irrefl 0 hpos
  · rw [if_neg hu0]
    have hu0' : u = 0 := le_antisymm (not_lt.mp hu0) hu
    subst hu0'
    rw [max_eq_right (by linarith)]
    split_ifs with h1 h2
    · have hapT : min (0 + st.customer.credit_balance) (itemsTotal items) = itemsTotal items :=
        le_antisymm (min_le_right _ _) h1
      rw [hapT]
      ring
    · ring
    · have h0 : min (0 + st.customer.credit_balance) (itemsTotal items) = 0 :=
        le_antisymm (not_lt.mp h2) hap
      rw [h0]
      ring

theorem create_sale_inv (items : List SaleItemInput) (u : ℚ) (pt : Option PaymentType)
    (st : State) (hu : 0 ≤ u)
    (hitems : ∀ it ∈ items, 0 < it.quantity ∧ 0 ≤ it.unit_price)
    (h : Inv st) : Inv (create_sale items u pt st) := by
  obtain ⟨hc, hd, hsee, hb, hful, hdle, hsl, hpl, hrec⟩ := h
  have hT := itemsTotal_nonneg items hitems
  have hap : 0 ≤ min (u + st.customer.credit_balance) (itemsTotal items) :=
    le_min (by linarith) hT
  have hrem := remaining_nonneg (u + st.customer.credit_balance) (itemsTotal items)
  have hminle : min (u + st.customer.credit_balance) (itemsTotal items) ≤ itemsTotal items :=
    min_le_right _ _
  refine ⟨?_, ?_, ?_, ?_, ?_, ?_, ?_, ?_, ?_⟩
  · rw [create_sale_credit items u pt st hd]
    exact le_max_left _ _
  · rw [create_sale_debt items u pt st hd]
    exact add_nonneg (le_max_left _ _) (by linarith)
  · by_cases hcase : 0 < (u + st.customer.credit_balance -
        min (u + st.customer.credit_balance) (itemsTotal items)) - st.customer.total_debt
    · right
      have hrpos : 0 < u + st.customer.credit_balance -
          min (u + st.customer.credit_balance) (itemsTotal items) := by linarith
      have hmin := rem_pos_min _ _ hrpos
      rw [hmin] at hcase
      rw [create_sale_debt items u pt st hd, hmin, max_eq_left (by linarith)]
      ring
    · left
      rw [create_sale_credit items u pt st hd,
        max_eq_left (by linarith [not_lt.mp hcase])]
  · rw [create_sale_sales]
    intro s hs
    rcases List.mem_append.mp hs with hmem | hmem
    · exact hb s hmem
    · rw [List.mem_singleton] at hmem
      subst hmem
      exact newSaleOf_bounds items u st hT
  · rw [create_sale_sales]
    intro s hs
    rcases List.mem_append.mp hs with hmem | hmem
    · exact hful s hmem
    · rw [List.mem_singleton] at hmem
      subst hmem
      exact newSaleOf_fully items u st
  · rw [create_sale_debt items u pt st hd, create_sale_sales, outstanding_append,
      newSaleOf_outstanding items u st hap]
    have hout0 := outstanding_nonneg st.sales hb
    have hmax : max 0 (st.customer.total_debt - (u + st.customer.credit_balance -
        min (u + st.customer.credit_balance) (itemsTotal items))) ≤ outstanding st.sales :=
      max_le hout0 (by linarith)
    linarith
  · rw [create_sale_sales]
    by_cases hu0 : 0 < u
    · rw [create_sale_links_pos items u pt st hu0]
      intro l hl
      rcases List.mem_append.mp hl with hmem | hmem
      · have := hsl l hmem
        simp only [List.length_append, List.length_cons, List.length_nil]
        omega
      · rw [List.mem_singleton] at hmem
        subst hmem
        simp only [List.length_append, List.length_cons, List.length_nil]
        omega
    · rw [create_sale_links_nonpos items u pt st hu0]
      intro l hl
      have := hsl l hl
      simp only [List.length_append, List.length_cons, List.length_nil]
      omega
  · by_cases hu0 : 0 < u
    · rw [create_sale_links_pos items u pt st hu0, create_sale_payments_pos items u pt st hu0]
      intro l hl
      rcases List.mem_append.mp hl with hmem | hmem
      · have := hpl l hmem
        simp only [List.length_append, List.length_cons, List.length_nil]
        omega
      · rw [List.mem_singleton] at hmem
        subst hmem
        simp only [List.length_append, List.length_cons, List.length_nil]
        omega
    · rw [create_sale_links_nonpos items u pt st hu0,
        create_sale_payments_nonpos items u pt st hu0]
      exact hpl
  · intro k s0 hk
    rw [create_sale_sales] at hk
    by_cases hklt : k < st.sales.length
    · rw [List.get?_append hklt] at hk
      have hold := hrec k s0 hk
      simp only [linkSumSale] at hold ⊢
      by_cases hu0 : 0 < u
      · rw [create_sale_links_pos items u pt st hu0, List.filter_append, List.map_append,
          List.sum_append]
        have hnil : List.filter (fun l => decide (l.sale_id = k))
            [(⟨st.sales.length, st.payments.length, min u (itemsTotal items)⟩ : SalePaymentLink)] =
            ([] : List SalePaymentLink) := by
          simp only [List.filter_cons, List.filter_nil, decide_eq_true_eq]
          rw [if_neg (by omega)]
        rw [hnil, hold]
        simp
      · rw [create_sale_links_nonpos items u pt st hu0]
        exact hold
    · rw [List.get?_append_right (not_lt.mp hklt)] at hk
      cases hdk : k - st.sales.length with
      | zero =>
        rw [hdk] at hk
        simp only [List.get?_cons_zero, Option.some.injEq] at hk
        subst hk
        have hkeq : k = st.sales.length := by omega
        subst hkeq
        have hnilold : List.filter (fun l => decide (l.sale_id = st.sales.length)) st.links =
            ([] : List SalePaymentLink) := by
          refine List.filter_eq_nil_iff.mpr fun l hl => ?_
          have := hsl l hl
          simp only [decide_eq_true_eq]
          omega
        have hnew := newSaleOf_recon items u st hu hc hT
        simp only [linkSumSale]
        by_cases hu0 : 0 < u
        · rw [create_sale_links_pos items u pt st hu0, List.filter_append, List.map_append,
            List.sum_append, hnilold]
          rw [if_pos hu0] at hnew
          rw [hnew]
          simp
        · rw [create_sale_links_nonpos items u pt st hu0, hnilold]
          rw [if_neg hu0] at hnew
          rw [hnew]
          simp
      | succ m =>
        rw [hdk] at hk
        simp at hk

/-- Every settled state of the ledger satisfies the invariant. -/
theorem reachable_inv {st : State} (h : Reachable st) : Inv st := by
  induction h with
  | init => exact genesis_inv
  | step _ hstep ih =>
    cases hstep with
    | pay a pt st => exact add_payment_inv ⟨a, pt⟩ _ ih
    | sale items u pt st hu hitems => exact create_sale_inv items u pt _ hu hitems ih

/-! ### The specification's allocation walk (spec §4.1) -/

/-- The remaining balances of the non-`FULLY_PAID` sales, oldest first. -/
def unpaidBalances (ss : List Sale) : List ℚ :=
  ((ss.filter fun s => s.status ≠ SaleStatus.FULLY_PAID).map saleBalance)

/-- The walk of the claim (and spec §4.1), written from its words: starting
from the pool, visit each remaining balance in order, apply
`min pool b`, subtract it from the pool, and stop early once the pool is
exhausted (`pool ≤ 0`; with a non-negative starting pool this is
`pool == 0`).  Returns the applied amounts of the visited sales and the
pool remaining after the walk. -/
def specWalk : ℚ → List ℚ → List ℚ × ℚ
  | pool, [] => ([], pool)
  | pool, b :: bs =>
    if pool ≤ 0 then ([], pool)
    else
      let ap := min pool b
      let r := specWalk (pool - ap) bs
      (ap :: r.1, r.2)

/-- The paid delta of a (new sale, old sale) pair for an outstanding old
sale. -/
def paidDelta (p : Sale × Sale) : Option ℚ :=
  if p.2.status ≠ SaleStatus.FULLY_PAID then some (p.1.amount_paid - p.2.amount_paid) else none

theorem zip_self_mem {α : Type} (l : List α) : ∀ p ∈ l.zip l, p.1 = p.2 := by
  induction l with
  | nil => intro p hp; simp at hp
  | cons a rest ih =>
    intro p hp
    rw [List.zip_cons_cons] at hp
    rcases List.mem_cons.mp hp with rfl | hp'
    · rfl
    · exact ih p hp'

theorem zip_self_deltas (ss : List Sale) :
    (ss.zip ss).filterMap paidDelta = List.replicate (unpaidBalances ss).length 0 := by
  induction ss with
  | nil => simp [unpaidBalances]
  | cons s rest ih =>
    by_cases hf : s.status = SaleStatus.FULLY_PAID
    · rw [List.zip_cons_cons, List.filterMap_cons]
      have hd : paidDelta (s, s) = none := by simp [paidDelta, hf]
      rw [hd]
      have hlen : (unpaidBalances (s :: rest)).length = (unpaidBalances rest).length := by
        simp [unpaidBalances, hf]
      rw [hlen]
      exact ih
    · rw [List.zip_cons_cons, List.filterMap_cons]
      have hd : paidDelta (s, s) = some 0 := by simp [paidDelta, hf]
      rw [hd]
      have hlen : (unpaidBalances (s :: rest)).length = (unpaidBalances rest).length + 1 := by
        simp [unpaidBalances, hf]
      rw [hlen, List.replicate_succ, ih]

/-- The loop of `add_payment` computes exactly the walk of the claim: the
same total allocated, the same leftover pool, per-sale paid deltas of the
outstanding sales in order equal to the applied amounts (zero past the
early stop), and `FULLY_PAID` sales untouched. -/
theorem allocateToSales_specWalk (pid : Nat) (pool : ℚ) (ss : List Sale) :
    ∀ i,
      (allocateToSales pid i pool ss).total_allocated =
        (specWalk pool (unpaidBalances ss)).1.sum ∧
      (allocateToSales pid i pool ss).pool_left = (specWalk pool (unpaidBalances ss)).2 ∧
      ((allocateToSales pid i pool ss).sales.zip ss).filterMap paidDelta =
        (specWalk pool (unpaidBalances ss)).1 ++
          List.replicate ((unpaidBalances ss).length -
            (specWalk pool (unpaidBalances ss)).1.length) 0 ∧
      ∀ p ∈ (allocateToSales pid i pool ss).sales.zip ss,
        p.2.status = SaleStatus.FULLY_PAID → p.1 = p.2 := by
  induction ss generalizing pool with
  | nil =>
    intro i
    refine ⟨?_, ?_, ?_, ?_⟩ <;> simp [allocateToSales_nil, unpaidBalances, specWalk]
  | cons s rest ih =>
    intro i
    by_cases hf : s.status = SaleStatus.FULLY_PAID
    · rw [allocateToSales_cons_skip pid i pool s rest (Or.inl hf)]
      dsimp only
      have hbal : unpaidBalances (s :: rest) = unpaidBalances rest := by
        simp [unpaidBalances, hf]
      rw [hbal]
      obtain ⟨ih1, ih2, ih3, ih4⟩ := ih pool (i + 1)
      refine ⟨ih1, ih2, ?_, ?_⟩
      · rw [List.zip_cons_cons, List.filterMap_cons]
        have hd : paidDelta (s, s) = none := by simp [paidDelta, hf]
        rw [hd]
        exact ih3
      · intro p hp
        rw [List.zip_cons_cons] at hp
        rcases List.mem_cons.mp hp with rfl | hp'
        · intro _
          rfl
        · exact ih4 p hp'
    · have hbal : unpaidBalances (s :: rest) = saleBalance s :: unpaidBalances rest := by
        simp [unpaidBalances, hf]
      by_cases hp : pool ≤ 0
      · rw [allocateToSales_nonpos pid pool (s :: rest) hp i]
        dsimp only
        rw [hbal]
        have hw : specWalk pool (saleBalance s :: unpaidBalances rest) = ([], pool) := by
          simp [specWalk, hp]
        rw [hw]
        refine ⟨rfl, rfl, ?_, ?_⟩
        · rw [zip_self_deltas (s :: rest)]
          rw [hbal]
          simp
        · intro p hp' _
          exact zip_self_mem _ p hp'
      · rw [allocateToSales_cons_active pid i pool s rest hf (not_le.mp hp)]
        dsimp only
        rw [hbal]
        have hw : specWalk pool (saleBalance s :: unpaidBalances rest) =
            (min pool (saleBalance s) :: (specWalk (pool - min pool (saleBalance s))
              (unpaidBalances rest)).1,
             (specWalk (pool - min pool (saleBalance s)) (unpaidBalances rest)).2) := by
          rw [specWalk, if_neg hp]
        rw [hw]
        have hsb : saleBalance s = s.total_amount - s.amount_paid := rfl
        rw [hsb]
        obtain ⟨ih1, ih2, ih3, ih4⟩ :=
          ih (pool - min pool (s.total_amount - s.amount_paid)) (i + 1)
        refine ⟨?_, ih2, ?_, ?_⟩
        · rw [List.sum_cons, ih1]
          ring
        · rw [List.zip_cons_cons, List.filterMap_cons]
          have hd : paidDelta (applyAmount s (min pool (s.total_amount - s.amount_paid)), s) =
              some (min pool (s.total_amount - s.amount_paid)) := by
            simp only [paidDelta, applyAmount, hf]
            rw [if_pos hf]
            congr 1
            ring
          rw [hd, ih3]
          simp only [List.length_cons]
          rw [List.cons_append, Nat.succ_sub_succ_eq_sub]
        · intro p hp'
          rw [List.zip_cons_cons] at hp'
          rcases List.mem_cons.mp hp' with rfl | hp2
          · intro hst
            exact absurd hst hf
          · exact ih4 p hp2

/-! ### Claim theorems -/

/-- C1: for every `add_payment` call on an existing customer with amount
`a > 0` and (non-negative) existing credit `c`, walking the non-`FULLY_PAID`
sales oldest-first from `pool = a + c` with `applied_i = min(pool, b_i)`:
the call adds exactly `applied_i` to each visited sale's `amount_paid`
(zero past the early stop, untouched `FULLY_PAID` sales), and finishes with
`total_debt = max(0, d - Σ applied_i)` and `credit_balance` equal to the
pool remaining after the walk. -/
theorem C1_add_payment_is_spec_walk (payment_input : PaymentInput) (st : State)
    (ha : 0 < payment_input.amount) (hc : 0 ≤ st.customer.credit_balance) :
    (add_payment payment_input st).customer.total_debt =
      max 0 (st.customer.total_debt -
        (specWalk (payment_input.amount + st.customer.credit_balance)
          (unpaidBalances st.sales)).1.sum) ∧
    (add_payment payment_input st).customer.credit_balance =
      (specWalk (payment_input.amount + st.customer.credit_balance)
        (unpaidBalances st.sales)).2 ∧
    ((add_payment payment_input st).sales.zip st.sales).filterMap paidDelta =
      (specWalk (payment_input.amount + st.customer.credit_balance)
        (unpaidBalances st.sales)).1 ++
        List.replicate ((unpaidBalances st.sales).length -
          (specWalk (payment_input.amount + st.customer.credit_balance)
            (unpaidBalances st.sales)).1.length) 0 ∧
    ∀ p ∈ (add_payment payment_input st).sales.zip st.sales,
      p.2.status = SaleStatus.FULLY_PAID → p.1 = p.2 := by
  have hpool : (0 : ℚ) ≤ payment_input.amount + st.customer.credit_balance := by linarith
  have hpl : 0 ≤ (payAlloc payment_input st).pool_left :=
    allocateToSales_pool_left_nonneg _ _ _ hpool 0
  obtain ⟨hw1, hw2, hw3, hw4⟩ :
      (payAlloc payment_input st).total_allocated =
        (specWalk (payment_input.amount + st.customer.credit_balance)
          (unpaidBalances st.sales)).1.sum ∧
      (payAlloc payment_input st).pool_left =
        (specWalk (payment_input.amount + st.customer.credit_balance)
          (unpaidBalances st.sales)).2 ∧
      ((payAlloc payment_input st).sales.zip st.sales).filterMap paidDelta =
        (specWalk (payment_input.amount + st.customer.credit_balance)
          (unpaidBalances st.sales)).1 ++
          List.replicate ((unpaidBalances st.sales).length -
            (specWalk (payment_input.amount + st.customer.credit_balance)
              (unpaidBalances st.sales)).1.length) 0 ∧
      ∀ p ∈ (payAlloc payment_input st).sales.zip st.sales,
        p.2.status = SaleStatus.FULLY_PAID → p.1 = p.2 :=
    allocateToSales_specWalk st.payments.length
      (payment_input.amount + st.customer.credit_balance) st.sales 0
  rw [add_payment_def]
  refine ⟨?_, ?_, ?_, ?_⟩
  · dsimp only
    rw [hw1]
    split_ifs with hq
    · exact (max_eq_left (le_of_lt hq)).symm
    · exact (max_eq_right (not_lt.mp hq)).symm
  · dsimp only
    rw [← hw2]
    split_ifs with hq
    · rfl
    · have : (payAlloc payment_input st).pool_left = 0 := le_antisymm (not_lt.mp hq) hpl
      rw [this]
  · exact hw3
  · exact hw4

/-- Concrete run of C1 (the spec's FIFO test vector: balances 100 and 50,
payment 120). -/
def fifoState : State :=
  { customer := { credit_balance := 0, total_debt := 150 }
    sales := [⟨100, 0, 0, SaleStatus.UNPAID⟩, ⟨50, 0, 0, SaleStatus.UNPAID⟩]
    payments := []
    links := [] }

theorem C1_add_payment_is_spec_walk_witness :
    ((0 : ℚ) < 120 ∧ (0 : ℚ) ≤ fifoState.customer.credit_balance) ∧
    ((add_payment ⟨120, PaymentType.CASH⟩ fifoState).customer.total_debt =
      max 0 (fifoState.customer.total_debt -
        (specWalk (120 + fifoState.customer.credit_balance)
          (unpaidBalances fifoState.sales)).1.sum) ∧
    (add_payment ⟨120, PaymentType.CASH⟩ fifoState).customer.credit_balance =
      (specWalk (120 + fifoState.customer.credit_balance)
        (unpaidBalances fifoState.sales)).2 ∧
    ((add_payment ⟨120, PaymentType.CASH⟩ fifoState).sales.zip fifoState.sales).filterMap
        paidDelta =
      (specWalk (120 + fifoState.customer.credit_balance)
        (unpaidBalances fifoState.sales)).1 ++
        List.replicate ((unpaidBalances fifoState.sales).length -
          (specWalk (120 + fifoState.customer.credit_balance)
            (unpaidBalances fifoState.sales)).1.length) 0 ∧
    ∀ p ∈ (add_payment ⟨120, PaymentType.CASH⟩ fifoState).sales.zip fifoState.sales,
      p.2.status = SaleStatus.FULLY_PAID → p.1 = p.2) :=
  ⟨⟨by norm_num, by norm_num [fifoState]⟩,
    C1_add_payment_is_spec_walk ⟨120, PaymentType.CASH⟩ fifoState (by norm_num)
      (by norm_num [fifoState])⟩

/-- C10: when `amount + credit_balance ≤ 0` (the service has no positivity
guard), `add_payment` makes no sale allocations, creates no links, leaves
`total_debt` unchanged, still appends a `Payment` row with that amount, and
resets `credit_balance` to `0`, erasing any pre-existing credit. -/
theorem C10_nonpositive_pool_erases_credit (payment_input : PaymentInput) (st : State)
    (hle : payment_input.amount + st.customer.credit_balance ≤ 0)
    (hd : 0 ≤ st.customer.total_debt) :
    (add_payment payment_input st).sales = st.sales ∧
    (add_payment payment_input st).links = st.links ∧
    (add_payment payment_input st).customer.total_debt = st.customer.total_debt ∧
    (add_payment payment_input st).payments =
      st.payments ++ [⟨payment_input.amount, some payment_input.payment_type⟩] ∧
    (add_payment payment_input st).customer.credit_balance = 0 := by
  have hzero : payAlloc payment_input st =
      ⟨st.sales, [], payment_input.amount + st.customer.credit_balance, 0⟩ :=
    allocateToSales_nonpos _ _ _ hle 0
  rw [add_payment_def, hzero]
  refine ⟨rfl, by simp, ?_, rfl, ?_⟩
  · dsimp only
    rw [sub_zero, if_neg (by linarith)]
  · dsimp only
    rw [if_neg (by linarith)]

theorem C10_nonpositive_pool_erases_credit_witness :
    (((-5 : ℚ) + (3 : ℚ) ≤ 0 ∧ (0 : ℚ) ≤ 7) ∧
    ((add_payment ⟨-5, PaymentType.CASH⟩
        ⟨⟨3, 7⟩, [⟨20, 5, 0, SaleStatus.PARTIALLY_PAID⟩], [], []⟩).sales =
      [⟨20, 5, 0, SaleStatus.PARTIALLY_PAID⟩] ∧
    (add_payment ⟨-5, PaymentType.CASH⟩
        ⟨⟨3, 7⟩, [⟨20, 5, 0, SaleStatus.PARTIALLY_PAID⟩], [], []⟩).links = [] ∧
    (add_payment ⟨-5, PaymentType.CASH⟩
        ⟨⟨3, 7⟩, [⟨20, 5, 0, SaleStatus.PARTIALLY_PAID⟩], [], []⟩).customer.total_debt = 7 ∧
    (add_payment ⟨-5, PaymentType.CASH⟩
        ⟨⟨3, 7⟩, [⟨20, 5, 0, SaleStatus.PARTIALLY_PAID⟩], [], []⟩).payments =
      [⟨-5, some PaymentType.CASH⟩] ∧
    (add_payment ⟨-5, PaymentType.CASH⟩
        ⟨⟨3, 7⟩, [⟨20, 5, 0, SaleStatus.PARTIALLY_PAID⟩], [], []⟩).customer.credit_balance = 0)) := by
  have h := C10_nonpositive_pool_erases_credit ⟨-5, PaymentType.CASH⟩
    ⟨⟨3, 7⟩, [⟨20, 5, 0, SaleStatus.PARTIALLY_PAID⟩], [], []⟩ (by norm_num) (by norm_num)
  exact ⟨⟨by norm_num, by norm_num⟩, by simpa using h⟩

/-! ### Concrete traces -/

/-- Trace: fresh customer, then a sale of total 50 with no upfront payment
(leaves `total_debt = 50` and one `UNPAID` sale of balance 50). -/
def saleTrace1 : State := create_sale [⟨1, 50⟩] 0 none genesis

/-- Trace: `saleTrace1`, then a sale of total 10 with upfront payment 100
(the "seesaw": the leftover 90 pays the aggregate debt down to 0 and
leaves credit 40, without touching the old sale's balance). -/
def seesawTrace : State :=
  create_sale [⟨1, 10⟩] 100 (some PaymentType.CASH) saleTrace1

/-- Trace: fresh customer, then a payment of 40 with no sales (pure
credit). -/
def creditTrace : State := add_payment ⟨40, PaymentType.CASH⟩ genesis

/-- Trace: `creditTrace`, then a sale of total 100 with upfront payment 30
(the sale is paid 70 = 30 cash + 40 credit, but only the cash 30 gets a
link). -/
def linkTrace : State :=
  create_sale [⟨1, 100⟩] 30 (some PaymentType.CASH) creditTrace

theorem saleTrace1_reachable : Reachable saleTrace1 :=
  Reachable.step Reachable.init
    (Step.sale [⟨1, 50⟩] 0 none genesis (by norm_num)
      (fun it hit => by
        rw [List.mem_singleton] at hit
        subst hit
        exact ⟨by norm_num, by norm_num⟩))

theorem seesawTrace_reachable : Reachable seesawTrace :=
  Reachable.step saleTrace1_reachable
    (Step.sale [⟨1, 10⟩] 100 (some PaymentType.CASH) saleTrace1 (by norm_num)
      (fun it hit => by
        rw [List.mem_singleton] at hit
        subst hit
        exact ⟨by norm_num, by norm_num⟩))

theorem creditTrace_reachable : Reachable creditTrace :=
  Reachable.step Reachable.init (Step.pay 40 PaymentType.CASH genesis)

theorem linkTrace_reachable : Reachable linkTrace :=
  Reachable.step creditTrace_reachable
    (Step.sale [⟨1, 100⟩] 30 (some PaymentType.CASH) creditTrace (by norm_num)
      (fun it hit => by
        rw [List.mem_singleton] at hit
        subst hit
        exact ⟨by norm_num, by norm_num⟩))

/-- C2: the cross-invariant "total_debt equals the sum of remaining
balances of the non-FULLY_PAID sales" is violated by the code at a
reachable state: after `create_sale` pays existing debt down from the
upfront leftover without touching any existing sale (the seesaw of
src/sales/services.py lines 119-129), `total_debt = 0` while the old sale
still has balance 50. -/
theorem C2_cross_invariant_violated :
    Reachable seesawTrace ∧ seesawTrace.customer.total_debt = 0 ∧
      outstanding seesawTrace.sales = 50 ∧ (0 : ℚ) ≠ 50 := by
  refine ⟨seesawTrace_reachable, ?_, ?_, by norm_num⟩ <;>
    norm_num [seesawTrace, saleTrace1, create_sale, genesis, itemsTotal,
      outstanding_cons, outstanding_nil, saleBalance] <;> decide

/-- C5: `add_payment` with `amount = 0` is not rejected: no `InvalidInput`
check exists in `PaymentInput` (src/payments/schemas.py) or in the service
(src/payments/services.py), so the call runs to completion and persists a
`Payment` row with amount 0 — contradicting the claimed rejection before
any state change. -/
theorem C5_zero_amount_payment_processed :
    (add_payment ⟨0, PaymentType.CASH⟩ (⟨⟨5, 0⟩, [], [], []⟩ : State)).payments =
      [⟨0, some PaymentType.CASH⟩] ∧
    (⟨⟨5, 0⟩, [], [], []⟩ : State).payments = [] ∧
    (add_payment ⟨0, PaymentType.CASH⟩ (⟨⟨5, 0⟩, [], [], []⟩ : State)).customer.credit_balance = 5 := by
  refine ⟨?_, rfl, ?_⟩ <;>
    norm_num [add_payment_def, payAlloc, allocateToSales]

/-- C6: at every settled (reachable) state, `credit_balance ≥ 0` and
`total_debt ≥ 0`, and the two are never simultaneously positive. -/
theorem C6_balances_nonneg_never_both_positive (st : State) (h : Reachable st) :
    0 ≤ st.customer.credit_balance ∧ 0 ≤ st.customer.total_debt ∧
      ¬(0 < st.customer.credit_balance ∧ 0 < st.customer.total_debt) := by
  obtain ⟨hc, hd, hsee, -, -, -, -, -, -⟩ := reachable_inv h
  refine ⟨hc, hd, ?_⟩
  rintro ⟨h1, h2⟩
  rcases hsee with e | e <;> linarith

theorem C6_balances_nonneg_never_both_positive_witness :
    0 ≤ seesawTrace.customer.credit_balance ∧ 0 ≤ seesawTrace.customer.total_debt ∧
      ¬(0 < seesawTrace.customer.credit_balance ∧ 0 < seesawTrace.customer.total_debt) :=
  C6_balances_nonneg_never_both_positive seesawTrace seesawTrace_reachable

/-- C7: at every settled state every sale satisfies
`0 ≤ amount_paid ≤ total_amount`, and no service call (`add_payment` or
`create_sale`) ever decreases a sale's `amount_paid`. -/
theorem C7_sale_bounds_and_monotonicity :
    (∀ st : State, Reachable st → ∀ s ∈ st.sales,
      0 ≤ s.amount_paid ∧ s.amount_paid ≤ s.total_amount) ∧
    (∀ st t : State, Reachable st → Step st t → ∀ k s0 s1,
      st.sales.get? k = some s0 → t.sales.get? k = some s1 →
      s0.amount_paid ≤ s1.amount_paid) := by
  constructor
  · intro st h
    exact (reachable_inv h).sale_bounds
  · intro st t h hstep k s0 s1 hs0 hs1
    have hinv := reachable_inv h
    cases hstep with
    | pay a pt st =>
      rw [add_payment_def] at hs1
      dsimp only at hs1
      simp only [payAlloc] at hs1
      obtain ⟨-, -, -, hpaid⟩ := allocateToSales_get? st.payments.length
        (a + st.customer.credit_balance) st.sales 0 k
      simp only [Nat.zero_add] at hpaid
      rw [hs1, hs0] at hpaid
      simp only [Option.map_some', Option.some.injEq] at hpaid
      have hsum : 0 ≤ (((allocateToSales st.payments.length 0
          (a + st.customer.credit_balance) st.sales).links.filter
            fun l => l.sale_id = k).map SalePaymentLink.amount_applied).sum := by
        refine List.sum_nonneg fun x hx => ?_
        obtain ⟨l, hl, rfl⟩ := List.mem_map.mp hx
        exact allocateToSales_links_nonneg st.payments.length
          (a + st.customer.credit_balance) st.sales hinv.sale_bounds 0 l
          (List.mem_of_mem_filter hl)
      linarith [hpaid]
    | sale items u pt st hu hitems =>
      rw [create_sale_sales] at hs1
      obtain ⟨hk, -⟩ := List.get?_eq_some.mp hs0
      rw [List.get?_append hk, hs0, Option.some.injEq] at hs1
      rw [hs1]

theorem C7_sale_bounds_and_monotonicity_witness :
    0 ≤ (Sale.mk 50 0 0 SaleStatus.UNPAID).amount_paid ∧
      (Sale.mk 50 0 0 SaleStatus.UNPAID).amount_paid ≤
        (Sale.mk 50 0 0 SaleStatus.UNPAID).total_amount :=
  C7_sale_bounds_and_monotonicity.1 saleTrace1 saleTrace1_reachable
    (Sale.mk 50 0 0 SaleStatus.UNPAID)
    (by norm_num [saleTrace1, create_sale, genesis, itemsTotal, newSaleOf])

/-- C9: at every settled state, every sale's links sum to exactly
`amount_paid - credit_applied`: the credit consumed at creation counts in
`amount_paid` but produces no link, while the upfront-cash portion and
every later `add_payment` allocation each produce a link for the amount
applied. -/
theorem C9_links_sum_paid_minus_credit (st : State) (h : Reachable st) :
    ∀ k s0, st.sales.get? k = some s0 →
      linkSumSale st k = s0.amount_paid - s0.credit_applied :=
  (reachable_inv h).recon

theorem C9_links_sum_paid_minus_credit_witness :
    linkSumSale linkTrace 0 =
      (Sale.mk 100 70 40 SaleStatus.PARTIALLY_PAID).amount_paid -
        (Sale.mk 100 70 40 SaleStatus.PARTIALLY_PAID).credit_applied :=
  C9_links_sum_paid_minus_credit linkTrace linkTrace_reachable 0
    (Sale.mk 100 70 40 SaleStatus.PARTIALLY_PAID)
    (by norm_num [linkTrace, creditTrace, create_sale, add_payment_def, payAlloc,
      allocateToSales, genesis, itemsTotal, newSaleOf])

/-- C4 counterexample: at the reachable state `linkTrace` the sale's links
sum to 30 (the upfront cash) while its `amount_paid` is 70 (cash plus the
40 of consumed credit, which produces no link) — so
"`sum(amount_applied over its links) == sale.amount_paid`" fails. -/
theorem C4_counterexample_links_ne_paid :
    Reachable linkTrace ∧
    linkTrace.sales.get? 0 = some (Sale.mk 100 70 40 SaleStatus.PARTIALLY_PAID) ∧
    linkSumSale linkTrace 0 = 30 ∧ (30 : ℚ) ≠ 70 := by
  refine ⟨linkTrace_reachable, ?_, ?_, by norm_num⟩ <;>
    norm_num [linkTrace, creditTrace, create_sale, add_payment_def, payAlloc,
      allocateToSales, genesis, itemsTotal, newSaleOf, linkSumSale]

/-- C4 amended: at every settled state every sale's links sum to
`amount_paid - credit_applied` (not `amount_paid`); and a payment's links
are bounded by the call that created it: the links of an `apply_payment`
payment of amount `a > 0` sum to at most `a` plus the customer's
`credit_balance` at the call (credit re-allocated through the payment can
push the sum above `a` alone), and the single link of a `create_sale`
upfront payment is at most the upfront amount. -/
theorem C4_amended_link_reconciliation :
    (∀ st : State, Reachable st → ∀ k s0, st.sales.get? k = some s0 →
      linkSumSale st k = s0.amount_paid - s0.credit_applied) ∧
    (∀ (payment_input : PaymentInput) (st : State), Reachable st →
      0 < payment_input.amount →
      linkSumPayment (add_payment payment_input st) st.payments.length ≤
        payment_input.amount + st.customer.credit_balance) ∧
    (∀ (items : List SaleItemInput) (u : ℚ) (pt : Option PaymentType) (st : State),
      Reachable st → 0 < u →
      linkSumPayment (create_sale items u pt st) st.payments.length ≤ u) := by
  refine ⟨?_, ?_, ?_⟩
  · intro st h
    exact (reachable_inv h).recon
  · intro payment_input st h ha
    obtain ⟨hc, -, -, -, -, -, -, hpl, -⟩ := reachable_inv h
    have hpool : (0 : ℚ) ≤ payment_input.amount + st.customer.credit_balance := by linarith
    have hplnn : 0 ≤ (payAlloc payment_input st).pool_left :=
      allocateToSales_pool_left_nonneg _ _ _ hpool 0
    have hadd : (payAlloc payment_input st).pool_left +
        (payAlloc payment_input st).total_allocated =
        payment_input.amount + st.customer.credit_balance :=
      allocateToSales_pool_add _ _ _ 0
    have hsum : ((payAlloc payment_input st).links.map SalePaymentLink.amount_applied).sum =
        (payAlloc payment_input st).total_allocated :=
      allocateToSales_links_sum _ _ _ 0
    rw [add_payment_def]
    simp only [linkSumPayment]
    rw [List.filter_append, List.map_append, List.sum_append]
    have hnil : List.filter (fun l => decide (l.payment_id = st.payments.length)) st.links =
        ([] : List SalePaymentLink) := by
      refine List.filter_eq_nil_iff.mpr fun l hl => ?_
      have := hpl l hl
      simp only [decide_eq_true_eq]
      omega
    have hall : List.filter (fun l => decide (l.payment_id = st.payments.length))
        (payAlloc payment_input st).links = (payAlloc payment_input st).links := by
      refine List.filter_eq_self.mpr fun l hl => ?_
      have := allocateToSales_links_pid st.payments.length
        (payment_input.amount + st.customer.credit_balance) st.sales 0 l hl
      simp only [decide_eq_true_eq]
      exact this
    rw [hnil, hall, hsum]
    simp only [List.map_nil, List.sum_nil, zero_add]
    linarith
  · intro items u pt st h hu0
    obtain ⟨-, -, -, -, -, -, -, hpl, -⟩ := reachable_inv h
    simp only [linkSumPayment]
    rw [create_sale_links_pos items u pt st hu0, List.filter_append, List.map_append,
      List.sum_append]
    have hnil : List.filter (fun l => decide (l.payment_id = st.payments.length)) st.links =
        ([] : List SalePaymentLink) := by
      refine List.filter_eq_nil_iff.mpr fun l hl => ?_
      have := hpl l hl
      simp only [decide_eq_true_eq]
      omega
    rw [hnil]
    simp only [List.map_nil, List.sum_nil, zero_add, List.filter_cons, List.filter_nil,
      decide_eq_true_eq, if_pos rfl, if_true, List.map_cons, List.sum_cons, add_zero]
    exact min_le_left _ _

theorem C4_amended_link_reconciliation_witness :
    linkSumPayment (add_payment ⟨40, PaymentType.CASH⟩ genesis) genesis.payments.length ≤
      40 + genesis.customer.credit_balance :=
  C4_amended_link_reconciliation.2.1 ⟨40, PaymentType.CASH⟩ genesis Reachable.init
    (by norm_num)

/-- C3 counterexample: with existing debt 50 and no credit (the reachable
state `saleTrace1`), `create_sale` of total 10 with upfront 100 leaves
pool leftover 90, but the customer's new `credit_balance` is 40, not 90 —
the leftover does not simply become credit (it first pays the debt). -/
theorem C3_counterexample_leftover_not_credit :
    Reachable saleTrace1 ∧
    saleTrace1.customer.credit_balance = 0 ∧
    saleTrace1.customer.total_debt = 50 ∧
    (100 + saleTrace1.customer.credit_balance) -
      min (100 + saleTrace1.customer.credit_balance) (itemsTotal [⟨1, 10⟩]) = 90 ∧
    (create_sale [⟨1, 10⟩] 100 (some PaymentType.CASH) saleTrace1).customer.credit_balance =
      40 ∧
    (40 : ℚ) ≠ 90 := by
  refine ⟨saleTrace1_reachable, ?_, ?_, ?_, ?_, by norm_num⟩ <;>
    norm_num [saleTrace1, create_sale, genesis, itemsTotal]

/-- C3 amended: `create_sale` with line-item total `T`, upfront `u ≥ 0`,
credit `c ≥ 0` and debt `d ≥ 0` creates the sale with
`amount_paid = min(u + c, T)` and
`credit_applied = max(0, min(u + c, T) - u)`; the pool leftover
`ℓ = (u + c) - min(u + c, T)` first pays down the existing debt —
`credit_balance` becomes `max(0, ℓ - d)` (not `ℓ`) and `total_debt`
becomes `max(0, d - ℓ) + (T - min(u + c, T))`. -/
theorem C3_amended_create_sale (items : List SaleItemInput) (u : ℚ)
    (pt : Option PaymentType) (st : State) (hu : 0 ≤ u)
    (hc : 0 ≤ st.customer.credit_balance) (hd : 0 ≤ st.customer.total_debt)
    (hT : 0 ≤ itemsTotal items) :
    (create_sale items u pt st).sales = st.sales ++ [newSaleOf items u st] ∧
    (newSaleOf items u st).total_amount = itemsTotal items ∧
    (newSaleOf items u st).amount_paid =
      min (u + st.customer.credit_balance) (itemsTotal items) ∧
    (newSaleOf items u st).credit_applied =
      max 0 (min (u + st.customer.credit_balance) (itemsTotal items) - u) ∧
    (create_sale items u pt st).customer.credit_balance =
      max 0 ((u + st.customer.credit_balance -
        min (u + st.customer.credit_balance) (itemsTotal items)) - st.customer.total_debt) ∧
    (create_sale items u pt st).customer.total_debt =
      max 0 (st.customer.total_debt - (u + st.customer.credit_balance -
        min (u + st.customer.credit_balance) (itemsTotal items))) +
      (itemsTotal items - min (u + st.customer.credit_balance) (itemsTotal items)) :=
  ⟨create_sale_sales items u pt st, newSaleOf_total items u st,
    newSaleOf_paid items u st (le_min (by linarith) hT), newSaleOf_ca items u st,
    create_sale_credit items u pt st hd, create_sale_debt items u pt st hd⟩

theorem C3_amended_create_sale_witness :
    ((0 : ℚ) ≤ 100 ∧ (0 : ℚ) ≤ saleTrace1.customer.credit_balance ∧
      (0 : ℚ) ≤ saleTrace1.customer.total_debt ∧ (0 : ℚ) ≤ itemsTotal [⟨1, 10⟩]) ∧
    ((create_sale [⟨1, 10⟩] 100 (some PaymentType.CASH) saleTrace1).sales =
      saleTrace1.sales ++ [newSaleOf [⟨1, 10⟩] 100 saleTrace1] ∧
    (newSaleOf [⟨1, 10⟩] 100 saleTrace1).total_amount = itemsTotal [⟨1, 10⟩] ∧
    (newSaleOf [⟨1, 10⟩] 100 saleTrace1).amount_paid =
      min (100 + saleTrace1.customer.credit_balance) (itemsTotal [⟨1, 10⟩]) ∧
    (newSaleOf [⟨1, 10⟩] 100 saleTrace1).credit_applied =
      max 0 (min (100 + saleTrace1.customer.credit_balance) (itemsTotal [⟨1, 10⟩]) - 100) ∧
    (create_sale [⟨1, 10⟩] 100 (some PaymentType.CASH) saleTrace1).customer.credit_balance =
      max 0 ((100 + saleTrace1.customer.credit_balance -
        min (100 + saleTrace1.customer.credit_balance) (itemsTotal [⟨1, 10⟩])) -
        saleTrace1.customer.total_debt) ∧
    (create_sale [⟨1, 10⟩] 100 (some PaymentType.CASH) saleTrace1).customer.total_debt =
      max 0 (saleTrace1.customer.total_debt - (100 + saleTrace1.customer.credit_balance -
        min (100 + saleTrace1.customer.credit_balance) (itemsTotal [⟨1, 10⟩]))) +
      (itemsTotal [⟨1, 10⟩] - min (100 + saleTrace1.customer.credit_balance)
        (itemsTotal [⟨1, 10⟩]))) :=
  ⟨⟨by norm_num, by norm_num [saleTrace1, create_sale, genesis, itemsTotal],
      by norm_num [saleTrace1, create_sale, genesis, itemsTotal],
      by norm_num [itemsTotal]⟩,
    C3_amended_create_sale [⟨1, 10⟩] 100 (some PaymentType.CASH) saleTrace1 (by norm_num)
      (by norm_num [saleTrace1, create_sale, genesis, itemsTotal])
      (by norm_num [saleTrace1, create_sale, genesis, itemsTotal])
      (by norm_num [itemsTotal])⟩

end Ledger
